import Mathlib

/-!
Verification of the curio WindowPoSt partition scheduler
(package `window`: chain-head watcher `processHeadChange`, bidding admitter
`CanAccept`, partition prover `Do`, and the task-identity store).

The Go source is shallowly embedded: chain epochs (`abi.ChainEpoch`, int64)
become `Int`; database tables become lists of row structures; fallible calls
(chain RPC, database) take their outcomes from explicit environment records
using `Except`.  External collaborators whose internals are irrelevant here
(the cryptographic prover `DoPartition`, CBOR/JSON marshalling) are oracles in
the environment; the scheduler only branches on whether they succeed.
-/

deriving instance DecidableEq for Except

namespace Window

/-! ## Protocol deadline arithmetic (go-state-types `dline`, lotus policy)

`NewDeadlineInfo` in the source calls `dline.NewInfo` with the built-in actor
policy constants; those constants and `dline.NewInfo` are embedded here. -/

def WPoStPeriodDeadlines : Nat := 48

def WPoStProvingPeriod : Int := 2880

def WPoStChallengeWindow : Int := 60

def WPoStChallengeLookback : Int := 20

def FaultDeclarationCutoff : Int := 70

/-- `dline.Info`: the deadline object derived from
(period start, deadline index, current epoch). -/
structure Info where
  CurrentEpoch : Int
  PeriodStart : Int
  Index : Nat
  Open : Int
  Close : Int
  Challenge : Int
  FaultCutoff : Int
deriving Repr, DecidableEq

/-- `dline.NewInfo` specialised to the protocol constants
(as `NewDeadlineInfo` in the source always passes them). -/
def dlineNewInfo (periodStart : Int) (deadlineIdx : Nat) (currEpoch : Int) : Info :=
  if deadlineIdx < WPoStPeriodDeadlines then
    let deadlineOpen := periodStart + (deadlineIdx : Int) * WPoStChallengeWindow
    { CurrentEpoch := currEpoch
      PeriodStart := periodStart
      Index := deadlineIdx
      Open := deadlineOpen
      Close := deadlineOpen + WPoStChallengeWindow
      Challenge := deadlineOpen - WPoStChallengeLookback
      FaultCutoff := deadlineOpen - FaultDeclarationCutoff }
  else
    let afterLastDeadline := periodStart + WPoStProvingPeriod
    { CurrentEpoch := currEpoch
      PeriodStart := periodStart
      Index := deadlineIdx
      Open := afterLastDeadline
      Close := afterLastDeadline
      Challenge := afterLastDeadline
      FaultCutoff := 0 }

def Info.PeriodStarted (d : Info) : Bool := d.PeriodStart ≤ d.CurrentEpoch

def Info.NextPeriodStart (d : Info) : Int := d.PeriodStart + WPoStProvingPeriod

def Info.PeriodElapsed (d : Info) : Bool := d.NextPeriodStart ≤ d.CurrentEpoch

/-- `NewDeadlineInfo` from the source file. -/
def NewDeadlineInfo (periodStart : Int) (deadlineIdx : Nat) (currEpoch : Int) : Info :=
  dlineNewInfo periodStart deadlineIdx currEpoch

/-! ## Data model: durable rows -/

/-- One row of `wdpost_partition_tasks`. -/
structure TaskRow where
  task_id : Nat
  sp_id : Nat
  proving_period_start : Int
  deadline_index : Nat
  partition_index : Nat
deriving Repr, DecidableEq

/-- `wdTaskIdentity`: the logical identity tuple of a partition task. -/
structure wdTaskIdentity where
  SpID : Nat
  ProvingPeriodStart : Int
  DeadlineIndex : Nat
  PartitionIndex : Nat
deriving Repr, DecidableEq

def identOf (r : TaskRow) : wdTaskIdentity :=
  ⟨r.sp_id, r.proving_period_start, r.deadline_index, r.partition_index⟩

/-- One row of `wdpost_proofs`.  `proof_params` is the opaque marshalled
proof blob, represented by a handle. -/
structure ProofRow where
  sp_id : Nat
  proving_period_start : Int
  deadline : Nat
  partition : Nat
  submit_at_epoch : Int
  submit_by_epoch : Int
  proof_params : Nat
deriving Repr, DecidableEq

/-- One row of `harmony_test` (owned by the runtime; `Do` writes `result`). -/
structure TestRow where
  task_id : Nat
  result : Option String
deriving Repr, DecidableEq

/-! ## Chain-head watcher (`processHeadChange`, `addTaskToDB`) -/

/-- The task store seen by the watcher: the `wdpost_partition_tasks` table
plus the runtime's task-id allocator. -/
structure Store where
  tasks : List TaskRow
  nextId : Nat
deriving Repr, DecidableEq

def hasIdent (st : Store) (i : wdTaskIdentity) : Bool :=
  st.tasks.any (fun r => identOf r == i)

inductive DBErr
  | uniqueViolation
deriving Repr, DecidableEq

/-- The transactional INSERT issued by `addTaskToDB`.  The table has a unique
constraint on the identity tuple (§3, §6 of the spec); inserting a duplicate
identity raises a unique-constraint error.  (`task_id` is also a primary key,
but the runtime assigns a fresh, sequence-generated id per proposal, so that
constraint cannot fire and is not modelled.) -/
def txInsertPartitionTask (tx : Store) (tid : Nat) (i : wdTaskIdentity) :
    Except DBErr Store :=
  if hasIdent tx i then
    .error .uniqueViolation
  else
    .ok { tx with
          tasks := tx.tasks ++
            [⟨tid, i.SpID, i.ProvingPeriodStart, i.DeadlineIndex, i.PartitionIndex⟩] }

/-- `addTaskToDB` from the source: run the INSERT inside the factory
transaction; on error report it, otherwise vote to commit. -/
def addTaskToDB (taskId : Nat) (taskIdent : wdTaskIdentity) (tx : Store) :
    Except DBErr (Bool × Store) :=
  match txInsertPartitionTask tx taskId taskIdent with
  | .error e => .error e
  | .ok tx2 => .ok (true, tx2)

/-- Modelled from the spec: the durable runtime's task factory
(`harmonytask.AddTaskFunc`, part of this repository but not under `src/`).
Per §4.1 it assigns a fresh `task_id`, invokes the callback (`addTaskToDB`)
inside a database transaction, commits on a true verdict, discards on a false
verdict, and uses a conflict policy that silently discards duplicate
identities (the unique-constraint error rolls the transaction back). -/
def taskFactorySubmit (st : Store) (i : wdTaskIdentity) : Store :=
  match addTaskToDB st.nextId i st with
  | .error _ => st
  | .ok (true, tx2) => { tx2 with nextId := st.nextId + 1 }
  | .ok (false, _) => st

inductive WatchErr
  | rpcDeadline
  | rpcPartitions
  | noTaskFunc
deriving Repr, DecidableEq

/-- Chain responses at the applied tipset, per tracked actor id:
`StateMinerProvingDeadline`, `StateMinerPartitions` (only the partition count
matters: the watcher ranges over partition indices), and whether the
task-factory promise has been fulfilled (`windowPoStTF.Val ≠ nil`). -/
structure WatcherEnv where
  minerDeadline : Nat → Except Unit Info
  partitionCount : Nat → Nat → Except Unit Nat
  taskFuncSet : Bool

/-- The inner partition loop of `processHeadChange`: for each partition index,
check the task factory and submit the identity.  A missing factory aborts the
handler with an error. -/
def enqueuePartitions (env : WatcherEnv) (aid : Nat) (pstart : Int) (dlIdx : Nat) :
    List Nat → Store → Store × Option WatchErr
  | [], st => (st, none)
  | p :: ps, st =>
    if env.taskFuncSet then
      enqueuePartitions env aid pstart dlIdx ps
        (taskFactorySubmit st ⟨aid, pstart, dlIdx, p⟩)
    else (st, some .noTaskFunc)

/-- The actor loop of `processHeadChange`.  Tracked actors are ID addresses,
represented by their numeric id (`address.IDFromAddress` succeeds on them).
Note the source returns `nil` from the whole handler when a miner's proving
period has not started, instead of continuing with the next actor. -/
def processHeadChangeLoop (env : WatcherEnv) :
    List Nat → Store → Store × Option WatchErr
  | [], st => (st, none)
  | aid :: rest, st =>
    match env.minerDeadline aid with
    | .error _ => (st, some .rpcDeadline)
    | .ok di =>
      if di.PeriodStarted = false then
        (st, none)
      else
        match env.partitionCount aid di.Index with
        | .error _ => (st, some .rpcPartitions)
        | .ok n =>
          match enqueuePartitions env aid di.PeriodStart di.Index (List.range n) st with
          | (st2, none) => processHeadChangeLoop env rest st2
          | (st2, some e) => (st2, some e)

/-- `processHeadChange` on an applied tipset: iterate the tracked actors.
Each factory submission commits its own transaction, so rows inserted before
an error remain in the store. -/
def processHeadChange (actors : List Nat) (env : WatcherEnv) (st : Store) :
    Store × Option WatchErr :=
  processHeadChangeLoop env actors st

/-- One watcher invocation, viewed as a store transformer. -/
def runWatcher (actors : List Nat) (env : WatcherEnv) (st : Store) : Store :=
  (processHeadChange actors env st).1

/-! ## Partition prover (`Do`) -/

/-- The durable state `Do` reads and writes: the three tables it touches plus
the per-task failure counts read by `CanAccept` from `harmony_task_history`. -/
structure DBState where
  partitionTasks : List TaskRow
  proofs : List ProofRow
  harmonyTest : List TestRow
  historyFailures : Nat → Nat

inductive DoErr
  | identityQuery
  | chainHead
  | newIDAddress
  | tipsetAfter
  | partitionProver
  | marshalPoSt
  | marshalJson
  | updateTest
  | insertProofs
deriving Repr, DecidableEq

/-- Environment of one `Do` invocation.  `tipsetAfter` is
`ChainGetTipSetAfterHeight` (the returned tipset is an opaque handle),
`partitionProof` is `DoPartition` (opaque `PoSt` result handle),
`marshalPoSt` is `MarshalCBOR` (opaque bytes handle), `jsonData` is the
rendered test-result JSON document, and `insertProofs` is the rows-affected
report of the `wdpost_proofs` INSERT. -/
structure DoEnv where
  identityQueryFails : Bool
  chainHead : Except Unit Int
  testQueryFails : Bool
  tipsetAfter : Int → Except Unit Int
  partitionProof : Int → Info → Nat → Except Unit Nat
  marshalPoSt : Nat → Except Unit Nat
  jsonMarshalFails : Bool
  jsonData : String
  updateTestFails : Bool
  insertProofs : Except Unit Nat

/-- The identity-row lookup at the top of `Do` (`QueryRow ... Scan`): a
missing row surfaces as an error, like any database failure. -/
def queryIdentityRow (st : DBState) (env : DoEnv) (tid : Nat) :
    Except Unit TaskRow :=
  if env.identityQueryFails then .error ()
  else
    match st.partitionTasks.find? (fun r => r.task_id == tid) with
    | none => .error ()
    | some r => .ok r

/-- Number of `harmony_test` rows for a task id (the COUNT query). -/
def countTest (st : DBState) (tid : Nat) : Nat :=
  (st.harmonyTest.filter (fun r => r.task_id == tid)).length

/-- One call of the memoized `isTestTask` closure.  `memo` models the
`testTask *int` variable: on the first call it is allocated (zero-valued) and
the COUNT query fills it; a query error leaves it at zero and yields `false`.
Later calls return the memoized classification without querying. -/
def isTestTaskStep (st : DBState) (env : DoEnv) (tid : Nat) (memo : Option Nat) :
    Bool × Option Nat :=
  match memo with
  | some v => (decide (0 < v), some v)
  | none =>
    if env.testQueryFails then (false, some 0)
    else (decide (0 < countTest st tid), some (countTest st tid))

/-- The proof record inserted on the live path of `Do`. -/
def mkProofRow (row : TaskRow) (d : Info) (params : Nat) : ProofRow :=
  { sp_id := row.sp_id
    proving_period_start := row.proving_period_start
    deadline := d.Index
    partition := row.partition_index
    submit_at_epoch := d.Open
    submit_by_epoch := d.Close
    proof_params := params }

/-- Result of a `Do` invocation: the durable state afterwards, the
`(done, err)` return pair, and whether `DoPartition` was invoked. -/
structure DoResult where
  state : DBState
  done : Bool
  err : Option DoErr
  calledPartitionProver : Bool

/-- Tail of `Do` from the `NewIDAddress` conversion on, with the
(possibly test-adjusted) deadline `deadline2` and the memoized test-task
classification `memo2`.  `address.NewIDAddress` fails only on ids ≥ 2^63. -/
def doAdjusted (st : DBState) (env : DoEnv) (taskID : Nat) (row : TaskRow)
    (deadline2 : Info) (memo2 : Option Nat) : DoResult :=
  if 2 ^ 63 ≤ row.sp_id then ⟨st, false, some .newIDAddress, false⟩
  else
    match env.tipsetAfter deadline2.Challenge with
    | .error _ => ⟨st, false, some .tipsetAfter, false⟩
    | .ok ts =>
      match env.partitionProof ts deadline2 row.partition_index with
      | .error _ => ⟨st, false, some .partitionProver, true⟩
      | .ok postOut =>
        match env.marshalPoSt postOut with
        | .error _ => ⟨st, false, some .marshalPoSt, true⟩
        | .ok msgbuf =>
          if (isTestTaskStep st env taskID memo2).1 then
            -- test path: divert to harmony_test, nothing committed on chain
            if env.jsonMarshalFails then ⟨st, false, some .marshalJson, true⟩
            else if env.updateTestFails then ⟨st, false, some .updateTest, true⟩
            else
              ⟨{ st with harmonyTest := st.harmonyTest.map (fun r =>
                   if r.task_id == taskID then { r with result := some env.jsonData }
                   else r) },
               true, none, true⟩
          else
            -- live path: INSERT INTO wdpost_proofs
            match env.insertProofs with
            | .error _ => ⟨st, false, some .insertProofs, true⟩
            | .ok n =>
              let st2 :=
                if 1 ≤ n then
                  { st with proofs := st.proofs ++ [mkProofRow row deadline2 msgbuf] }
                else st
              if n = 1 then ⟨st2, true, none, true⟩
              else ⟨st2, false, none, true⟩   -- return false, err  (err is nil here)

/-- Tail of `Do` after the stale-reap check:
the future-challenge adjustment (test tasks only), then `doAdjusted`. -/
def doAfterStale (st : DBState) (env : DoEnv) (taskID : Nat) (row : TaskRow)
    (height : Int) (deadline : Info) (memo : Option Nat) : DoResult :=
  -- if deadline.Challenge > head.Height() { if isTestTask() { shift back } }
  if height < deadline.Challenge then
    if (isTestTaskStep st env taskID memo).1 then
      doAdjusted st env taskID row
        (NewDeadlineInfo (row.proving_period_start - WPoStProvingPeriod)
          row.deadline_index (height - WPoStProvingPeriod))
        (isTestTaskStep st env taskID memo).2
    else doAdjusted st env taskID row deadline (isTestTaskStep st env taskID memo).2
  else doAdjusted st env taskID row deadline memo

/-- `Do` from the source.  The `stillOwned` callback is never consulted by the
source body and is omitted. -/
def Do (st : DBState) (env : DoEnv) (taskID : Nat) : DoResult :=
  match queryIdentityRow st env taskID with
  | .error _ => ⟨st, false, some .identityQuery, false⟩
  | .ok row =>
    match env.chainHead with
    | .error _ => ⟨st, false, some .chainHead, false⟩
    | .ok height =>
      let deadline := NewDeadlineInfo row.proving_period_start row.deadline_index height
      -- if deadline.PeriodElapsed() && !isTestTask() { return true, nil }
      if deadline.PeriodElapsed then
        match isTestTaskStep st env taskID none with
        | (false, _) => ⟨st, true, none, false⟩
        | (true, memo1) => doAfterStale st env taskID row height deadline memo1
      else
        doAfterStale st env taskID row height deadline none

/-! ## Bidding admitter (`CanAccept`) -/

inductive CAErr
  | paramsCheck
  | rpc
  | db
deriving Repr, DecidableEq

/-- Environment of one `CanAccept` call: the `paramsReady` probe, the chain
head height, and whether the hydration SELECT fails. -/
structure CAEnv where
  paramsReady : Except Unit Bool
  chainHead : Except Unit Int
  selectFails : Bool

/-- `wdTaskDef`: a hydrated candidate with its deadline object. -/
structure wdTaskDef where
  TaskID : Nat
  SpID : Nat
  ProvingPeriodStart : Int
  DeadlineIndex : Nat
  PartitionIndex : Nat
  dlInfo : Info
deriving Repr, DecidableEq

/-- Hydration: the batched SELECT over `wdpost_partition_tasks` restricted to
the offered ids (rows come back in store order; missing ids are absent), with
the deadline object every row gets assigned in the filter pass. -/
def hydrateAt (st : DBState) (ids : List Nat) (height : Int) : List wdTaskDef :=
  (st.partitionTasks.filter (fun r => ids.contains r.task_id)).map (fun r =>
    { TaskID := r.task_id
      SpID := r.sp_id
      ProvingPeriodStart := r.proving_period_start
      DeadlineIndex := r.deadline_index
      PartitionIndex := r.partition_index
      dlInfo := NewDeadlineInfo r.proving_period_start r.deadline_index height })

/-- The comparison of the urgency sort (`sort.Slice` by ascending
`dlInfo.Open`), as the induced nonstrict order. -/
def openLE (a b : wdTaskDef) : Prop := a.dlInfo.Open ≤ b.dlInfo.Open

instance : DecidableRel openLE := fun _ _ => Int.decLe _ _

instance : IsTotal wdTaskDef openLE := ⟨fun _ _ => Int.le_total _ _⟩

instance : IsTrans wdTaskDef openLE := ⟨fun _ _ _ h1 h2 => le_trans h1 h2⟩

/-- The bidding map over the sorted live tasks: position `idx` bids
`n + 10 - idx` minus the task's failure count from `harmony_task_history`
(a failed count query leaves the penalty at zero, which `historyFailures`
already absorbs). -/
def bidsOf (st : DBState) (n : Nat) : Nat → List wdTaskDef → List (Nat × Int)
  | _, [] => []
  | idx, d :: ds =>
    (d.TaskID, (n : Int) + 10 - (idx : Int) - (st.historyFailures d.TaskID : Int)) ::
      bidsOf st n (idx + 1) ds

/-- `CanAccept` from the source. -/
def CanAccept (st : DBState) (env : CAEnv) (ids : List Nat) :
    Except CAErr (List (Nat × Int)) :=
  match env.paramsReady with
  | .error _ => .error .paramsCheck
  | .ok false => .ok []
  | .ok true =>
    match env.chainHead with
    | .error _ => .error .rpc
    | .ok height =>
      if env.selectFails then .error .db
      else
        let tasks := hydrateAt st ids height
        let f := tasks.filter (fun d => d.dlInfo.PeriodElapsed)
        if f.isEmpty then
          bidsOf st tasks.length 0 (tasks.insertionSort openLE) |> .ok
        else
          .ok (f.map (fun d => (d.TaskID, (1000 : Int))))

/-- `MaxFailures` from `TypeDetails` in the source. -/
def MaxFailuresWdPost : Nat := 5

/-- Modelled from the spec: the durable task runtime (`harmonytask`, part of
this repository but not under `src/`) re-offers a task after a failed `Do`
while its recorded failures stay below `MaxFailures` (§4.4, §7); only success
or giving up after `MaxFailures` failures deletes the row. -/
def runtimeRetries (failures : Nat) : Bool := failures < MaxFailuresWdPost

/-! ## Concrete execution fixtures -/

/-- A `Do` environment where every external call succeeds; the chain head is
at epoch 130, inside deadline 2 of a proving period that started at epoch 0. -/
def liveDoEnv : DoEnv :=
  { identityQueryFails := false
    chainHead := .ok 130
    testQueryFails := false
    tipsetAfter := fun _ => .ok 1
    partitionProof := fun _ _ _ => .ok 42
    marshalPoSt := fun _ => .ok 9
    jsonMarshalFails := false
    jsonData := "test-result"
    updateTestFails := false
    insertProofs := .ok 1 }

/-- Identity row: task 7 for miner 1000, period start 0, deadline 2,
partition 0. -/
def exTaskRow : TaskRow := ⟨7, 1000, 0, 2, 0⟩

def exDBState : DBState := ⟨[exTaskRow], [], [], fun _ => 0⟩

/-- Environment whose chain head (epoch 10000) is far past the proving
period of `exTaskRow` (period start 0). -/
def staleDoEnv : DoEnv := { liveDoEnv with chainHead := .ok 10000 }

/-- Environment whose identity-row query fails. -/
def failDoEnv : DoEnv := { liveDoEnv with identityQueryFails := true }

/-- Environment where the `wdpost_proofs` INSERT reports zero affected rows. -/
def zeroInsDoEnv : DoEnv := { liveDoEnv with insertProofs := .ok 0 }

/-- State in which task 7 has a `harmony_test` row (it is a test task). -/
def testDBState : DBState := ⟨[exTaskRow], [], [⟨7, none⟩], fun _ => 0⟩

/-- Environment with a stale head in which the `harmony_test` COUNT query
fails. -/
def testFailDoEnv : DoEnv :=
  { liveDoEnv with chainHead := .ok 10000, testQueryFails := true }

/-- Identity row in the last deadline (index 47) of a period starting at
epoch 1000: its challenge epoch 3800 is in the future of chain head 2000. -/
def c7Row : TaskRow := ⟨3, 1, 1000, 47, 0⟩

def c7DBState : DBState := ⟨[c7Row], [], [], fun _ => 0⟩

def c7DoEnv : DoEnv :=
  { liveDoEnv with chainHead := .ok 2000, tipsetAfter := fun _ => .ok 5 }

/-- Watcher environment for two tracked miners: miner 1's proving period has
not started at the applied tipset (height 50 < period start 100), miner 2 is
mid-period (height 120, period start 0) with one partition in deadline 0. -/
def c1WatcherEnv : WatcherEnv :=
  { minerDeadline := fun aid =>
      if aid = 1 then .ok (dlineNewInfo 100 0 50) else .ok (dlineNewInfo 0 0 120)
    partitionCount := fun _ _ => .ok 1
    taskFuncSet := true }

/-- Watcher environment with a single mid-period miner (id 5) owning two
partitions of deadline 1. -/
def c3WatcherEnv : WatcherEnv :=
  { minerDeadline := fun _ => .ok (dlineNewInfo 0 1 80)
    partitionCount := fun _ _ => .ok 2
    taskFuncSet := true }

/-- Admitter state with two live tasks stored as task 1 (deadline 1, Open 60)
before task 2 (deadline 0, Open 0); task 1 has two recorded failures. -/
def caLiveSt : DBState :=
  ⟨[⟨1, 1, 0, 1, 0⟩, ⟨2, 1, 0, 0, 0⟩], [], [], fun t => if t = 1 then 2 else 0⟩

/-- Admitter environment: params ready, head at epoch 10, hydration works. -/
def caLiveEnv : CAEnv := ⟨.ok true, .ok 10, false⟩

/-- Admitter state with one stale task (task 1, period start 0) and one live
task (task 2, period start 9000) relative to head epoch 10000. -/
def caStaleSt : DBState :=
  ⟨[⟨1, 1, 0, 2, 0⟩, ⟨2, 1, 9000, 0, 0⟩], [], [], fun _ => 0⟩

def caStaleEnv : CAEnv := ⟨.ok true, .ok 10000, false⟩

/-! ## Deadline arithmetic lemmas -/

theorem newInfo_CurrentEpoch (p : Int) (i : Nat) (c : Int) :
    (NewDeadlineInfo p i c).CurrentEpoch = c := by
  unfold NewDeadlineInfo dlineNewInfo; split <;> rfl

theorem newInfo_PeriodStart (p : Int) (i : Nat) (c : Int) :
    (NewDeadlineInfo p i c).PeriodStart = p := by
  unfold NewDeadlineInfo dlineNewInfo; split <;> rfl

theorem newInfo_challenge_le (p : Int) (i : Nat) (c : Int) :
    (NewDeadlineInfo p i c).Challenge ≤ p + WPoStProvingPeriod := by
  unfold NewDeadlineInfo dlineNewInfo WPoStProvingPeriod WPoStChallengeWindow
    WPoStChallengeLookback WPoStPeriodDeadlines
  split
  case isTrue hlt => simp only; omega
  case isFalse hge => simp only; omega

theorem periodElapsed_iff (p : Int) (i : Nat) (c : Int) :
    (NewDeadlineInfo p i c).PeriodElapsed = true ↔ p + WPoStProvingPeriod ≤ c := by
  unfold Info.PeriodElapsed Info.NextPeriodStart
  rw [newInfo_CurrentEpoch, newInfo_PeriodStart]
  simp

theorem not_elapsed_of_future (p : Int) (i : Nat) (h : Int)
    (hfut : h < (NewDeadlineInfo p i h).Challenge) :
    (NewDeadlineInfo p i h).PeriodElapsed = false := by
  have hle := newInfo_challenge_le p i h
  cases hE : (NewDeadlineInfo p i h).PeriodElapsed
  · rfl
  · exfalso
    have h2 := (periodElapsed_iff p i h).1 hE
    omega

/-! ## Reduction lemmas for `Do` -/

theorem isTestTask_first_nonTest (st : DBState) (env : DoEnv) (tid : Nat)
    (hnotest : countTest st tid = 0) :
    isTestTaskStep st env tid none = (false, some 0) := by
  unfold isTestTaskStep
  cases hf : env.testQueryFails <;> simp [hf, hnotest]

theorem isTestTask_memo_nonTest (st : DBState) (env : DoEnv) (tid : Nat) (m2 : Option Nat)
    (hnotest : countTest st tid = 0) (hm : m2 = none ∨ m2 = some 0) :
    (isTestTaskStep st env tid m2).1 = false := by
  rcases hm with rfl | rfl
  · rw [isTestTask_first_nonTest st env tid hnotest]
  · rfl

theorem do_nonTest_reduces (st : DBState) (env : DoEnv) (tid : Nat) (r : TaskRow) (h : Int)
    (hq : queryIdentityRow st env tid = .ok r)
    (hh : env.chainHead = .ok h)
    (hne : (NewDeadlineInfo r.proving_period_start r.deadline_index h).PeriodElapsed = false) :
    Do st env tid =
      doAfterStale st env tid r h
        (NewDeadlineInfo r.proving_period_start r.deadline_index h) none := by
  unfold Do
  rw [hq]
  dsimp only
  rw [hh]
  dsimp only
  simp [hne]

theorem doAfterStale_nonTest (st : DBState) (env : DoEnv) (tid : Nat) (r : TaskRow)
    (h : Int) (d : Info) (hnotest : countTest st tid = 0) :
    doAfterStale st env tid r h d none =
      if h < d.Challenge then doAdjusted st env tid r d (some 0)
      else doAdjusted st env tid r d none := by
  unfold doAfterStale
  rw [isTestTask_first_nonTest st env tid hnotest]
  simp

theorem doAdjusted_err_or_frame (st : DBState) (env : DoEnv) (tid : Nat)
    (row : TaskRow) (d2 : Info) (m2 : Option Nat) :
    (doAdjusted st env tid row d2 m2).err = none ∨
      ((doAdjusted st env tid row d2 m2).state = st ∧
        (doAdjusted st env tid row d2 m2).done = false) := by
  unfold doAdjusted
  split
  · simp
  rcases hts : env.tipsetAfter d2.Challenge with e | ts <;> dsimp only
  · simp
  rcases hpp : env.partitionProof ts d2 row.partition_index with e | postOut <;> dsimp only
  · simp
  rcases hm : env.marshalPoSt postOut with e | msgbuf <;> dsimp only
  · simp
  split
  · split
    · simp
    split <;> simp
  rcases hins : env.insertProofs with e | n <;> dsimp only
  · simp
  split <;> simp

theorem doAfterStale_err_or_frame (st : DBState) (env : DoEnv) (tid : Nat)
    (row : TaskRow) (h : Int) (d : Info) (m : Option Nat) :
    (doAfterStale st env tid row h d m).err = none ∨
      ((doAfterStale st env tid row h d m).state = st ∧
        (doAfterStale st env tid row h d m).done = false) := by
  unfold doAfterStale
  split
  · split <;> apply doAdjusted_err_or_frame
  · apply doAdjusted_err_or_frame

theorem do_err_or_frame (st : DBState) (env : DoEnv) (tid : Nat) :
    (Do st env tid).err = none ∨
      ((Do st env tid).state = st ∧ (Do st env tid).done = false) := by
  unfold Do
  rcases hq : queryIdentityRow st env tid with e | row <;> dsimp only
  · simp
  rcases hh : env.chainHead with e | height <;> dsimp only
  · simp
  split
  · rcases hstep : isTestTaskStep st env tid none with ⟨b, memo⟩
    cases b <;> dsimp only
    · simp
    · apply doAfterStale_err_or_frame
  · apply doAfterStale_err_or_frame

theorem doAdjusted_calls_prover (st : DBState) (env : DoEnv) (tid : Nat)
    (row : TaskRow) (d2 : Info) (m2 : Option Nat) (ts : Int)
    (hsp : row.sp_id < 2 ^ 63)
    (hts : env.tipsetAfter d2.Challenge = .ok ts) :
    (doAdjusted st env tid row d2 m2).calledPartitionProver = true := by
  unfold doAdjusted
  rw [if_neg (by omega), hts]
  dsimp only
  rcases hpp : env.partitionProof ts d2 row.partition_index with e | postOut <;> dsimp only
  rcases hm : env.marshalPoSt postOut with e | msgbuf <;> dsimp only
  split
  · split
    · rfl
    split <;> rfl
  rcases hins : env.insertProofs with e | n <;> dsimp only
  split <;> rfl

theorem doAdjusted_live_insert (st : DBState) (env : DoEnv) (tid : Nat)
    (row : TaskRow) (d2 : Info) (m2 : Option Nat) (ts : Int) (p m nIns : Nat)
    (hsp : row.sp_id < 2 ^ 63)
    (hts : env.tipsetAfter d2.Challenge = .ok ts)
    (hpp : env.partitionProof ts d2 row.partition_index = .ok p)
    (hm : env.marshalPoSt p = .ok m)
    (htest : (isTestTaskStep st env tid m2).1 = false)
    (hins : env.insertProofs = .ok nIns) :
    doAdjusted st env tid row d2 m2 =
      ⟨if 1 ≤ nIns then { st with proofs := st.proofs ++ [mkProofRow row d2 m] } else st,
       decide (nIns = 1), none, true⟩ := by
  unfold doAdjusted
  rw [if_neg (by omega), hts]
  dsimp only
  rw [hpp]
  dsimp only
  rw [hm]
  dsimp only
  rw [htest]
  simp only [Bool.false_eq_true, if_false]
  rw [hins]
  dsimp only
  split
  · next h1 => simp [h1]
  · next h1 => simp [h1]

/-! ## Claims about the partition prover -/

/-- C2: for every task whose identity row exists and whose deadline, computed
from its period start and deadline index at the current chain head height,
satisfies PeriodElapsed, and which is not a test task, `Do` returns success
(done, no error), writes no `wdpost_proofs` row, and leaves `harmony_test`
untouched (the whole durable state is unchanged and the prover is never
invoked). -/
theorem do_stale_reap (st : DBState) (env : DoEnv) (tid : Nat) (r : TaskRow) (h : Int)
    (hq : queryIdentityRow st env tid = .ok r)
    (hh : env.chainHead = .ok h)
    (helapsed : (NewDeadlineInfo r.proving_period_start r.deadline_index h).PeriodElapsed = true)
    (hnotest : countTest st tid = 0) :
    (Do st env tid).done = true ∧ (Do st env tid).err = none ∧
      (Do st env tid).state = st ∧ (Do st env tid).calledPartitionProver = false := by
  unfold Do
  rw [hq]
  dsimp only
  rw [hh]
  dsimp only
  simp only [helapsed, if_true]
  rw [isTestTask_first_nonTest st env tid hnotest]
  simp

/-- Witness for C2: the stale task 7 (period start 0, head 10000) is reaped
with success and without touching the store. -/
theorem do_stale_reap_witness :
    (Do exDBState staleDoEnv 7).done = true ∧ (Do exDBState staleDoEnv 7).err = none ∧
      (Do exDBState staleDoEnv 7).state = exDBState ∧
      (Do exDBState staleDoEnv 7).calledPartitionProver = false :=
  do_stale_reap exDBState staleDoEnv 7 exTaskRow 10000
    (by decide) (by decide) (by decide) (by decide)

/-- C9: whenever `Do` returns a failure with a non-nil error — missing
identity row, chain-RPC error, proof-generation error, marshalling error,
or a failed write — the durable state is unchanged. -/
theorem do_error_frame (st : DBState) (env : DoEnv) (tid : Nat)
    (herr : (Do st env tid).err ≠ none) :
    (Do st env tid).state = st ∧ (Do st env tid).done = false := by
  rcases do_err_or_frame st env tid with hn | hf
  · exact absurd hn herr
  · exact hf

/-- Witness for C9: a failing identity query leaves the state unchanged. -/
theorem do_error_frame_witness :
    (Do exDBState failDoEnv 7).state = exDBState ∧
      (Do exDBState failDoEnv 7).done = false :=
  do_error_frame exDBState failDoEnv 7 (by decide)

/-- C10: if the `harmony_test` COUNT query fails inside `Do`, the first
`isTestTask` call silently classifies the task as non-test (memoizing the
zero count) instead of surfacing an error from `Do`, and every later check
in the same invocation reuses the memoized classification without querying
(it depends only on the memo cell). -/
theorem isTestTask_silent_and_memoized (st : DBState) (env : DoEnv) (tid : Nat)
    (r : TaskRow) (h : Int)
    (hfail : env.testQueryFails = true)
    (hq : queryIdentityRow st env tid = .ok r)
    (hh : env.chainHead = .ok h)
    (helapsed : (NewDeadlineInfo r.proving_period_start r.deadline_index h).PeriodElapsed = true) :
    isTestTaskStep st env tid none = (false, some 0) ∧
    (∀ (st2 : DBState) (env2 : DoEnv) (tid2 : Nat) (v : Nat),
        isTestTaskStep st2 env2 tid2 (some v) = (decide (0 < v), some v)) ∧
    (Do st env tid).done = true ∧ (Do st env tid).err = none := by
  have h1 : isTestTaskStep st env tid none = (false, some 0) := by
    unfold isTestTaskStep
    simp [hfail]
  refine ⟨h1, fun st2 env2 tid2 v => rfl, ?_, ?_⟩ <;>
  · unfold Do
    rw [hq]
    dsimp only
    rw [hh]
    dsimp only
    simp [helapsed, h1]

/-- Witness for C10: task 7 has a `harmony_test` row, yet with a failing
COUNT query it is classified non-test and reaped as stale without error. -/
theorem isTestTask_silent_and_memoized_witness :
    isTestTaskStep testDBState testFailDoEnv 7 none = (false, some 0) ∧
      (Do testDBState testFailDoEnv 7).done = true ∧
      (Do testDBState testFailDoEnv 7).err = none :=
  have h := isTestTask_silent_and_memoized testDBState testFailDoEnv 7 exTaskRow 10000
    (by decide) (by decide) (by decide) (by decide)
  ⟨h.1, h.2.2.1, h.2.2.2⟩

/-- C7 counterexample: a live (non-test) task in the last deadline of a
period starting at epoch 1000, at chain head 2000, has challenge epoch 3800
in the future, yet `Do` still invokes the partition prover (and even records
a proof), contradicting the claim that such tasks must not execute. -/
theorem do_future_live_executes_cex :
    ((2000 : Int) < (NewDeadlineInfo 1000 47 2000).Challenge) ∧
      countTest c7DBState 3 = 0 ∧
      (Do c7DBState c7DoEnv 3).calledPartitionProver = true ∧
      (Do c7DBState c7DoEnv 3).err = none := by decide

/-- C7 amended: for every live (non-test) task whose computed deadline has
Challenge greater than the current chain head height, `Do` proceeds anyway:
it resolves the challenge tipset and invokes the partition prover (only test
tasks get the one-period-back adjustment). -/
theorem do_future_live_invokes_prover (st : DBState) (env : DoEnv) (tid : Nat)
    (r : TaskRow) (h : Int) (ts : Int)
    (hq : queryIdentityRow st env tid = .ok r)
    (hh : env.chainHead = .ok h)
    (hnotest : countTest st tid = 0)
    (hfut : h < (NewDeadlineInfo r.proving_period_start r.deadline_index h).Challenge)
    (hsp : r.sp_id < 2 ^ 63)
    (hts : env.tipsetAfter (NewDeadlineInfo r.proving_period_start r.deadline_index h).Challenge
      = .ok ts) :
    (Do st env tid).calledPartitionProver = true := by
  rw [do_nonTest_reduces st env tid r h hq hh (not_elapsed_of_future _ _ _ hfut)]
  rw [doAfterStale_nonTest st env tid r h _ hnotest]
  rw [if_pos hfut]
  exact doAdjusted_calls_prover st env tid r _ (some 0) ts hsp hts

/-- Witness for the amended C7 at the concrete future-challenge task. -/
theorem do_future_live_invokes_prover_witness :
    (Do c7DBState c7DoEnv 3).calledPartitionProver = true :=
  do_future_live_invokes_prover c7DBState c7DoEnv 3 c7Row 2000 5
    (by decide) (by decide) (by decide) (by decide) (by decide) (by decide)

/-- C6 counterexample: on the live path with the `wdpost_proofs` INSERT
reporting zero affected rows, `Do` returns a failure with a nil error, and
the runtime (which retries any failure with fewer than `MaxFailures`
recorded failures) offers the task again: the failure is not terminal. -/
theorem do_zero_rows_insert_cex :
    zeroInsDoEnv.insertProofs = .ok 0 ∧
      (Do exDBState zeroInsDoEnv 7).done = false ∧
      (Do exDBState zeroInsDoEnv 7).err = none ∧
      (Do exDBState zeroInsDoEnv 7).state.proofs = [] ∧
      runtimeRetries 1 = true := by decide

/-- C6 amended: on the live (non-test) path of `Do`, after successful proof
generation the INSERT appends exactly one proof-record row when it reports
one affected row (and `Do` succeeds); if it reports zero affected rows, no
row is appended and `Do` returns a failure — done is false with a nil
error — which the runtime treats as retryable rather than terminal. -/
theorem do_live_insert_behavior (st : DBState) (env : DoEnv) (tid : Nat)
    (r : TaskRow) (h : Int) (ts : Int) (p m nIns : Nat)
    (hq : queryIdentityRow st env tid = .ok r)
    (hh : env.chainHead = .ok h)
    (hne : (NewDeadlineInfo r.proving_period_start r.deadline_index h).PeriodElapsed = false)
    (hnotest : countTest st tid = 0)
    (hsp : r.sp_id < 2 ^ 63)
    (hts : env.tipsetAfter
      (NewDeadlineInfo r.proving_period_start r.deadline_index h).Challenge = .ok ts)
    (hpp : env.partitionProof ts
      (NewDeadlineInfo r.proving_period_start r.deadline_index h) r.partition_index = .ok p)
    (hm : env.marshalPoSt p = .ok m)
    (hins : env.insertProofs = .ok nIns) :
    (Do st env tid).state.proofs =
      (if 1 ≤ nIns then
        st.proofs ++ [mkProofRow r (NewDeadlineInfo r.proving_period_start r.deadline_index h) m]
      else st.proofs) ∧
    (Do st env tid).state.harmonyTest = st.harmonyTest ∧
    (Do st env tid).done = decide (nIns = 1) ∧
    (Do st env tid).err = none ∧
    runtimeRetries 1 = true := by
  rw [do_nonTest_reduces st env tid r h hq hh hne,
    doAfterStale_nonTest st env tid r h _ hnotest]
  by_cases hfut : h < (NewDeadlineInfo r.proving_period_start r.deadline_index h).Challenge
  · rw [if_pos hfut,
      doAdjusted_live_insert st env tid r _ (some 0) ts p m nIns hsp hts hpp hm
        (isTestTask_memo_nonTest st env tid _ hnotest (Or.inr rfl)) hins]
    refine ⟨?_, ?_, rfl, rfl, rfl⟩ <;> by_cases h1 : 1 ≤ nIns <;> simp [h1]
  · rw [if_neg hfut,
      doAdjusted_live_insert st env tid r _ none ts p m nIns hsp hts hpp hm
        (isTestTask_memo_nonTest st env tid _ hnotest (Or.inl rfl)) hins]
    refine ⟨?_, ?_, rfl, rfl, rfl⟩ <;> by_cases h1 : 1 ≤ nIns <;> simp [h1]

/-- Witness for the amended C6 at the zero-affected-rows environment. -/
theorem do_live_insert_behavior_witness :
    (Do exDBState zeroInsDoEnv 7).state.proofs = exDBState.proofs ∧
      (Do exDBState zeroInsDoEnv 7).done = false ∧
      (Do exDBState zeroInsDoEnv 7).err = none :=
  have h := do_live_insert_behavior exDBState zeroInsDoEnv 7 exTaskRow 130 1 42 9 0
    (by decide) (by decide) (by decide) (by decide) (by decide) (by decide)
    (by decide) (by decide) (by decide)
  ⟨by simpa using h.1, by simpa using h.2.2.1, h.2.2.2.1⟩

/-! ## Watcher store lemmas -/

theorem taskFactorySubmit_eq (st : Store) (i : wdTaskIdentity) :
    taskFactorySubmit st i =
      if hasIdent st i then st
      else ⟨st.tasks ++
        [⟨st.nextId, i.SpID, i.ProvingPeriodStart, i.DeadlineIndex, i.PartitionIndex⟩],
        st.nextId + 1⟩ := by
  by_cases h : hasIdent st i = true <;>
    unfold taskFactorySubmit addTaskToDB txInsertPartitionTask <;> simp [h]

theorem identOf_mk (tid : Nat) (i : wdTaskIdentity) :
    identOf ⟨tid, i.SpID, i.ProvingPeriodStart, i.DeadlineIndex, i.PartitionIndex⟩ = i := by
  cases i; rfl

theorem factorySubmit_of_hasIdent (st : Store) (i : wdTaskIdentity)
    (h : hasIdent st i = true) : taskFactorySubmit st i = st := by
  rw [taskFactorySubmit_eq]
  simp [h]

theorem factorySubmit_hasIdent (st : Store) (i : wdTaskIdentity) :
    hasIdent (taskFactorySubmit st i) i = true := by
  rw [taskFactorySubmit_eq]
  split
  case isTrue h => exact h
  case isFalse h => simp [hasIdent, List.any_append, identOf_mk]

theorem factorySubmit_mono (st : Store) (i j : wdTaskIdentity)
    (hj : hasIdent st j = true) : hasIdent (taskFactorySubmit st i) j = true := by
  rw [taskFactorySubmit_eq]
  split
  case isTrue h => exact hj
  case isFalse h =>
    have := hj
    simp only [hasIdent, List.any_append, Bool.or_eq_true] at *
    exact Or.inl this

theorem enqueue_snd_none (env : WatcherEnv) (a : Nat) (ps : Int) (dl : Nat)
    (htf : env.taskFuncSet = true) :
    ∀ (l : List Nat) (st : Store), (enqueuePartitions env a ps dl l st).2 = none := by
  intro l
  induction l with
  | nil => intro st; rfl
  | cons p l ih =>
    intro st
    unfold enqueuePartitions
    simp only [htf, if_true]
    exact ih _

theorem enqueue_fst_noTaskFunc (env : WatcherEnv) (a : Nat) (ps : Int) (dl : Nat)
    (htf : env.taskFuncSet = false) (l : List Nat) (st : Store) :
    (enqueuePartitions env a ps dl l st).1 = st := by
  cases l with
  | nil => rfl
  | cons p l => unfold enqueuePartitions; simp [htf]

theorem enqueue_mono (env : WatcherEnv) (a : Nat) (ps : Int) (dl : Nat)
    (j : wdTaskIdentity) :
    ∀ (l : List Nat) (st : Store), hasIdent st j = true →
      hasIdent (enqueuePartitions env a ps dl l st).1 j = true := by
  intro l
  induction l with
  | nil => intro st hj; exact hj
  | cons p l ih =>
    intro st hj
    unfold enqueuePartitions
    cases htf : env.taskFuncSet
    · simpa [htf] using hj
    · simp only [if_true]
      exact ih _ (factorySubmit_mono _ _ _ hj)

theorem enqueue_mem (env : WatcherEnv) (a : Nat) (ps : Int) (dl : Nat)
    (htf : env.taskFuncSet = true) :
    ∀ (l : List Nat) (st : Store) (p : Nat), p ∈ l →
      hasIdent (enqueuePartitions env a ps dl l st).1 ⟨a, ps, dl, p⟩ = true := by
  intro l
  induction l with
  | nil => intro st p hp; cases hp
  | cons q l ih =>
    intro st p hp
    unfold enqueuePartitions
    simp only [htf, if_true]
    rcases List.mem_cons.1 hp with rfl | hmem
    · exact enqueue_mono env a ps dl _ l _ (factorySubmit_hasIdent _ _)
    · exact ih _ p hmem

theorem enqueue_noop (env : WatcherEnv) (a : Nat) (ps : Int) (dl : Nat) :
    ∀ (l : List Nat) (st : Store),
      (∀ p ∈ l, hasIdent st ⟨a, ps, dl, p⟩ = true) →
      (enqueuePartitions env a ps dl l st).1 = st := by
  intro l
  induction l with
  | nil => intro st _; rfl
  | cons p l ih =>
    intro st hall
    unfold enqueuePartitions
    cases htf : env.taskFuncSet
    · rfl
    · simp only [if_true]
      rw [factorySubmit_of_hasIdent _ _ (hall p (List.mem_cons_self p l))]
      exact ih _ (fun q hq => hall q (List.mem_cons_of_mem _ hq))

theorem enqueue_snd_cons (env : WatcherEnv) (a : Nat) (ps : Int) (dl : Nat)
    (htf : env.taskFuncSet = false) (p : Nat) (l : List Nat) (st : Store) :
    (enqueuePartitions env a ps dl (p :: l) st).2 = some .noTaskFunc := by
  unfold enqueuePartitions
  simp [htf]

theorem loop_mono (env : WatcherEnv) (j : wdTaskIdentity) :
    ∀ (acts : List Nat) (st : Store), hasIdent st j = true →
      hasIdent (processHeadChangeLoop env acts st).1 j = true := by
  intro acts
  induction acts with
  | nil => intro st hj; exact hj
  | cons aid rest ih =>
    intro st hj
    unfold processHeadChangeLoop
    rcases hd : env.minerDeadline aid with e | di <;> dsimp only
    · exact hj
    by_cases hps : di.PeriodStarted = false
    · rw [if_pos hps]
      exact hj
    rw [if_neg hps]
    rcases hp : env.partitionCount aid di.Index with e | n <;> dsimp only
    · exact hj
    rcases henq : enqueuePartitions env aid di.PeriodStart di.Index (List.range n) st
      with ⟨st1, e1⟩
    have h1 := enqueue_mono env aid di.PeriodStart di.Index j (List.range n) st hj
    rw [henq] at h1
    cases e1 <;> dsimp only
    · exact ih st1 h1
    · exact h1

theorem loop_idem (env : WatcherEnv) :
    ∀ (acts : List Nat) (st : Store),
      processHeadChangeLoop env acts ((processHeadChangeLoop env acts st).1) =
        processHeadChangeLoop env acts st := by
  intro acts
  induction acts with
  | nil => intro st; rfl
  | cons aid rest ih =>
    intro st
    rcases hd : env.minerDeadline aid with e | di
    · simp only [processHeadChangeLoop, hd]
    by_cases hps : di.PeriodStarted = false
    · have h1 : processHeadChangeLoop env (aid :: rest) st = (st, none) := by
        simp only [processHeadChangeLoop, hd]
        rw [if_pos hps]
      rw [h1]
      exact h1
    rcases hp : env.partitionCount aid di.Index with e | n
    · have h1 : processHeadChangeLoop env (aid :: rest) st = (st, some .rpcPartitions) := by
        simp only [processHeadChangeLoop, hd]
        rw [if_neg hps]
        rw [hp]
      rw [h1]
      exact h1
    have step : ∀ s : Store, processHeadChangeLoop env (aid :: rest) s =
        match enqueuePartitions env aid di.PeriodStart di.Index (List.range n) s with
        | (st2, none) => processHeadChangeLoop env rest st2
        | (st2, some e) => (st2, some e) := by
      intro s
      simp only [processHeadChangeLoop, hd]
      rw [if_neg hps]
      rw [hp]
      try rfl
    rw [step st]
    rcases henq : enqueuePartitions env aid di.PeriodStart di.Index (List.range n) st
      with ⟨st1, e1⟩
    cases e1 with
    | none =>
      dsimp only
      rcases hrest : processHeadChangeLoop env rest st1 with ⟨st2, e2⟩
      dsimp only
      have hall : ∀ p ∈ List.range n,
          hasIdent st2 ⟨aid, di.PeriodStart, di.Index, p⟩ = true := by
        intro p hp2
        cases htf : env.taskFuncSet
        · cases n with
          | zero => simp at hp2
          | succ k =>
            exfalso
            have h2 := enqueue_snd_cons env aid di.PeriodStart di.Index htf 0
              (List.map Nat.succ (List.range k)) st
            rw [← List.range_succ_eq_map, henq] at h2
            simp at h2
        · have h1 := enqueue_mem env aid di.PeriodStart di.Index htf (List.range n) st p hp2
          rw [henq] at h1
          have h3 := loop_mono env _ rest st1 h1
          rw [hrest] at h3
          exact h3
      rw [step st2]
      have hq2 : enqueuePartitions env aid di.PeriodStart di.Index (List.range n) st2
          = (st2, none) := by
        have hfst := enqueue_noop env aid di.PeriodStart di.Index (List.range n) st2 hall
        have hsnd : (enqueuePartitions env aid di.PeriodStart di.Index (List.range n) st2).2
            = none := by
          cases htf : env.taskFuncSet
          · cases n with
            | zero => rfl
            | succ k =>
              exfalso
              have h2 := enqueue_snd_cons env aid di.PeriodStart di.Index htf 0
                (List.map Nat.succ (List.range k)) st
              rw [← List.range_succ_eq_map, henq] at h2
              simp at h2
          · exact enqueue_snd_none env aid di.PeriodStart di.Index htf (List.range n) st2
        calc enqueuePartitions env aid di.PeriodStart di.Index (List.range n) st2
            = ((enqueuePartitions env aid di.PeriodStart di.Index (List.range n) st2).1,
               (enqueuePartitions env aid di.PeriodStart di.Index (List.range n) st2).2) := rfl
          _ = (st2, none) := by rw [hfst, hsnd]
      rw [hq2]
      dsimp only
      have H := ih st1
      rw [hrest] at H
      dsimp only at H
      exact H
    | some e =>
      dsimp only
      have hst1 : st1 = st := by
        cases htf : env.taskFuncSet
        · have h2 := enqueue_fst_noTaskFunc env aid di.PeriodStart di.Index htf
            (List.range n) st
          rw [henq] at h2
          exact h2
        · have h2 := enqueue_snd_none env aid di.PeriodStart di.Index htf (List.range n) st
          rw [henq] at h2
          simp at h2
      subst hst1
      rw [step st1, henq]

/-! ## Claims about the chain-head watcher -/

/-- C1 (failing input): invoking the watcher with tracked miners [1, 2] where
miner 1's proving period has not started, while miner 2 is mid-period
(PeriodStarted and not PeriodElapsed) with one partition, returns success
without enqueueing anything: the early `return nil` on miner 1 skips miner 2
entirely, so no task row with miner 2's identity exists afterwards. -/
theorem processHeadChange_skips_later_miners :
    c1WatcherEnv.minerDeadline 1 = .ok (dlineNewInfo 100 0 50) ∧
      (dlineNewInfo 100 0 50).PeriodStarted = false ∧
      c1WatcherEnv.minerDeadline 2 = .ok (dlineNewInfo 0 0 120) ∧
      (dlineNewInfo 0 0 120).PeriodStarted = true ∧
      (dlineNewInfo 0 0 120).PeriodElapsed = false ∧
      c1WatcherEnv.partitionCount 2 0 = .ok 1 ∧
      c1WatcherEnv.taskFuncSet = true ∧
      processHeadChange [1, 2] c1WatcherEnv ⟨[], 0⟩ = (⟨[], 0⟩, none) ∧
      hasIdent (processHeadChange [1, 2] c1WatcherEnv ⟨[], 0⟩).1 ⟨2, 0, 0, 0⟩ = false := by
  decide

/-- C3: enqueueing is idempotent.  Iterating the watcher any positive number
of times on the same applied tipset (same chain responses) leaves exactly the
store produced by a single invocation — in particular the set of task-identity
tuples is the same — and submitting a task whose identity tuple already exists
in the store is a no-op: the duplicate is silently discarded and the existing
rows are unchanged. -/
theorem watcher_enqueue_idempotent (actors : List Nat) (env : WatcherEnv) (st : Store)
    (n : Nat) (hn : 1 ≤ n) :
    (runWatcher actors env)^[n] st = runWatcher actors env st ∧
    (∀ i : wdTaskIdentity, hasIdent st i = true → taskFactorySubmit st i = st) := by
  constructor
  · induction n with
    | zero => omega
    | succ k ih =>
      by_cases hk : 1 ≤ k
      · rw [Function.iterate_succ_apply', ih hk]
        exact congrArg Prod.fst (loop_idem env actors st)
      · have hk0 : k = 0 := by omega
        subst hk0
        rfl
  · intro i hi
    exact factorySubmit_of_hasIdent st i hi

/-- Witness for C3: two invocations of the watcher for miner 5 (two
partitions of deadline 1) produce the same store as one. -/
theorem watcher_enqueue_idempotent_witness :
    (runWatcher [5] c3WatcherEnv)^[2] ⟨[], 0⟩ = runWatcher [5] c3WatcherEnv ⟨[], 0⟩ :=
  (watcher_enqueue_idempotent [5] c3WatcherEnv ⟨[], 0⟩ 2 (by decide)).1

/-! ## Bidding admitter lemmas and claims -/

theorem bidsOf_length (st : DBState) (n : Nat) :
    ∀ (k : Nat) (xs : List wdTaskDef), (bidsOf st n k xs).length = xs.length := by
  intro k xs
  induction xs generalizing k with
  | nil => rfl
  | cons d ds ih => simp [bidsOf, ih]

theorem bidsOf_getElem? (st : DBState) (n : Nat) :
    ∀ (xs : List wdTaskDef) (k i : Nat),
      (bidsOf st n k xs)[i]? = xs[i]?.map (fun d =>
        (d.TaskID, (n : Int) + 10 - (k : Int) - (i : Int)
          - (st.historyFailures d.TaskID : Int))) := by
  intro xs
  induction xs with
  | nil => intro k i; simp [bidsOf]
  | cons d ds ih =>
    intro k i
    cases i with
    | zero => simp [bidsOf]
    | succ j =>
      simp only [bidsOf, List.getElem?_cons_succ, ih (k + 1) j]
      cases hj : ds[j]? with
      | none => rfl
      | some e =>
        dsimp only [Option.map]
        congr 2
        push_cast
        ring

theorem bidsOf_map_fst (st : DBState) (n : Nat) :
    ∀ (k : Nat) (xs : List wdTaskDef),
      (bidsOf st n k xs).map Prod.fst = xs.map (fun d => d.TaskID) := by
  intro k xs
  induction xs generalizing k with
  | nil => rfl
  | cons d ds ih => simp [bidsOf, ih]

theorem canAccept_ok (st : DBState) (env : CAEnv) (ids : List Nat) (ht : Int)
    (hp : env.paramsReady = .ok true)
    (hh : env.chainHead = .ok ht)
    (hs : env.selectFails = false) :
    CanAccept st env ids =
      (if ((hydrateAt st ids ht).filter (fun d => d.dlInfo.PeriodElapsed)).isEmpty then
        .ok (bidsOf st (hydrateAt st ids ht).length 0
          ((hydrateAt st ids ht).insertionSort openLE))
      else
        .ok (((hydrateAt st ids ht).filter (fun d => d.dlInfo.PeriodElapsed)).map
          (fun d => (d.TaskID, (1000 : Int))))) := by
  unfold CanAccept
  rw [hp]
  dsimp only
  rw [hh]
  dsimp only
  simp only [hs, Bool.false_eq_true, if_false]

theorem hydrateAt_nodup_taskID (st : DBState) (ids : List Nat) (ht : Int)
    (h : (st.partitionTasks.map (fun r => r.task_id)).Nodup) :
    ((hydrateAt st ids ht).map (fun d => d.TaskID)).Nodup := by
  unfold hydrateAt
  rw [List.map_map]
  exact List.Nodup.sublist
    (List.Sublist.map _ (List.filter_sublist st.partitionTasks)) h

/-- C4: for every batch of candidate task ids offered to `CanAccept`, if at
least one hydrated task is stale (its deadline PeriodElapsed at the current
chain head), then every returned (task_id, bid) pair is for a stale task with
the fixed bid 1000, and no live task receives a bid in that call. -/
theorem canAccept_stale_priority (st : DBState) (env : CAEnv) (ids : List Nat) (ht : Int)
    (hp : env.paramsReady = .ok true)
    (hh : env.chainHead = .ok ht)
    (hs : env.selectFails = false)
    (hnodup : (st.partitionTasks.map (fun r => r.task_id)).Nodup)
    (hstale : ∃ d ∈ hydrateAt st ids ht, d.dlInfo.PeriodElapsed = true) :
    ∃ l, CanAccept st env ids = .ok l ∧
      (∀ q ∈ l, q.2 = 1000 ∧
        ∃ d ∈ hydrateAt st ids ht, d.dlInfo.PeriodElapsed = true ∧ d.TaskID = q.1) ∧
      (∀ d ∈ hydrateAt st ids ht, d.dlInfo.PeriodElapsed = false →
        ∀ q ∈ l, q.1 ≠ d.TaskID) := by
  rw [canAccept_ok st env ids ht hp hh hs]
  have hne : ((hydrateAt st ids ht).filter (fun d => d.dlInfo.PeriodElapsed)).isEmpty
      = false := by
    rcases hstale with ⟨d, hd, hel⟩
    rw [List.isEmpty_eq_false]
    intro hnil
    have : d ∈ (hydrateAt st ids ht).filter (fun d => d.dlInfo.PeriodElapsed) :=
      List.mem_filter.2 ⟨hd, hel⟩
    rw [hnil] at this
    cases this
  rw [hne]
  simp only [Bool.false_eq_true, if_false]
  refine ⟨_, rfl, ?_, ?_⟩
  · intro q hq
    rcases List.mem_map.1 hq with ⟨d, hdf, rfl⟩
    have hdf2 := List.mem_filter.1 hdf
    exact ⟨rfl, d, hdf2.1, hdf2.2, rfl⟩
  · intro d hd hlive q hq hqd
    rcases List.mem_map.1 hq with ⟨d2, hd2f, rfl⟩
    have hd2 := List.mem_filter.1 hd2f
    have hinj := List.inj_on_of_nodup_map (hydrateAt_nodup_taskID st ids ht hnodup)
      hd2.1 hd (by simpa using hqd)
    rw [hinj] at hd2
    rw [hd2.2] at hlive
    cases hlive

/-- C5: for every `CanAccept` batch containing only live tasks, with n the
number of live tasks: after sorting the live tasks ascending by their
deadline Open epoch, the task at 0-based position i is assigned bid
n + 10 - i minus that task's recorded failure count, and the base bid
n + 10 - i is strictly decreasing in the position, so the earliest-opening
task (position 0) has the strictly largest base bid.  Negative bids are
representable (bids live in Int). -/
theorem canAccept_live_bidding (st : DBState) (env : CAEnv) (ids : List Nat) (ht : Int)
    (hp : env.paramsReady = .ok true)
    (hh : env.chainHead = .ok ht)
    (hs : env.selectFails = false)
    (hlive : ∀ d ∈ hydrateAt st ids ht, d.dlInfo.PeriodElapsed = false) :
    ∃ (l : List (Nat × Int)) (sorted : List wdTaskDef), CanAccept st env ids = .ok l ∧
      sorted.Perm (hydrateAt st ids ht) ∧
      sorted.Pairwise openLE ∧
      l.length = (hydrateAt st ids ht).length ∧
      (∀ i : Nat, ∀ d : wdTaskDef, sorted[i]? = some d →
        l[i]? = some (d.TaskID,
          ((hydrateAt st ids ht).length : Int) + 10 - (i : Int)
            - (st.historyFailures d.TaskID : Int))) ∧
      (∀ i j : Nat, i < j → j < l.length →
        ((l.length : Int) + 10 - (j : Int)) < ((l.length : Int) + 10 - (i : Int))) := by
  rw [canAccept_ok st env ids ht hp hh hs]
  have hemp : ((hydrateAt st ids ht).filter (fun d => d.dlInfo.PeriodElapsed)).isEmpty
      = true := by
    rw [List.isEmpty_iff, List.filter_eq_nil_iff]
    intro d hd
    rw [hlive d hd]
    simp
  rw [hemp]
  simp only [if_true]
  refine ⟨_, (hydrateAt st ids ht).insertionSort openLE, rfl,
    List.perm_insertionSort openLE _, List.sorted_insertionSort openLE _, ?_, ?_, ?_⟩
  · rw [bidsOf_length, List.length_insertionSort]
  · intro i d hi
    rw [bidsOf_getElem? st _ _ 0 i, hi]
    dsimp only [Option.map]
    congr 2
  · intro i j hij hj
    omega

/-- C8 amended: for every `CanAccept` batch containing only live tasks, the
returned (task_id, bid) pairs are the live tasks reordered by the urgency
sort — ascending by the deadline Open epoch, a permutation of the hydrated
batch — rather than in input order. -/
theorem canAccept_live_sorted_order (st : DBState) (env : CAEnv) (ids : List Nat) (ht : Int)
    (hp : env.paramsReady = .ok true)
    (hh : env.chainHead = .ok ht)
    (hs : env.selectFails = false)
    (hlive : ∀ d ∈ hydrateAt st ids ht, d.dlInfo.PeriodElapsed = false) :
    ∃ (l : List (Nat × Int)) (sorted : List wdTaskDef), CanAccept st env ids = .ok l ∧
      sorted.Perm (hydrateAt st ids ht) ∧
      sorted.Pairwise openLE ∧
      l.map Prod.fst = sorted.map (fun d => d.TaskID) := by
  rw [canAccept_ok st env ids ht hp hh hs]
  have hemp : ((hydrateAt st ids ht).filter (fun d => d.dlInfo.PeriodElapsed)).isEmpty
      = true := by
    rw [List.isEmpty_iff, List.filter_eq_nil_iff]
    intro d hd
    rw [hlive d hd]
    simp
  rw [hemp]
  simp only [if_true]
  exact ⟨_, (hydrateAt st ids ht).insertionSort openLE, rfl,
    List.perm_insertionSort openLE _, List.sorted_insertionSort openLE _,
    bidsOf_map_fst st _ 0 _⟩

/-- C8 counterexample: with two live tasks hydrated in input order
[task 1 (Open 60), task 2 (Open 0)], `CanAccept` returns [(2, 12), (1, 9)]:
the output order differs from the input order, refuting the claim that the
returned list preserves the order of the input batch. -/
theorem canAccept_order_cex :
    CanAccept caLiveSt caLiveEnv [1, 2] = .ok [(2, 12), (1, 9)] ∧
      (hydrateAt caLiveSt [1, 2] 10).map (fun d => d.TaskID) = [1, 2] ∧
      (∀ d ∈ hydrateAt caLiveSt [1, 2] 10, d.dlInfo.PeriodElapsed = false) ∧
      [(2, 12), (1, 9)].map Prod.fst ≠ ([1, 2] : List Nat) := by decide

/-- Witness for C4 -/
theorem canAccept_stale_priority_witness :
    ∃ l, CanAccept caStaleSt caStaleEnv [1, 2] = .ok l ∧
      (∀ q ∈ l, q.2 = 1000 ∧
        ∃ d ∈ hydrateAt caStaleSt [1, 2] 10000,
          d.dlInfo.PeriodElapsed = true ∧ d.TaskID = q.1) ∧
      (∀ d ∈ hydrateAt caStaleSt [1, 2] 10000, d.dlInfo.PeriodElapsed = false →
        ∀ q ∈ l, q.1 ≠ d.TaskID) :=
  canAccept_stale_priority caStaleSt caStaleEnv [1, 2] 10000
    (by decide) (by decide) (by decide) (by decide) (by decide)

/-- Witness for C5 -/
theorem canAccept_live_bidding_witness :
    ∃ (l : List (Nat × Int)) (sorted : List wdTaskDef),
      CanAccept caLiveSt caLiveEnv [1, 2] = .ok l ∧
      sorted.Perm (hydrateAt caLiveSt [1, 2] 10) ∧
      sorted.Pairwise openLE ∧
      l.length = (hydrateAt caLiveSt [1, 2] 10).length ∧
      (∀ i : Nat, ∀ d : wdTaskDef, sorted[i]? = some d →
        l[i]? = some (d.TaskID,
          ((hydrateAt caLiveSt [1, 2] 10).length : Int) + 10 - (i : Int)
            - (caLiveSt.historyFailures d.TaskID : Int))) ∧
      (∀ i j : Nat, i < j → j < l.length →
        ((l.length : Int) + 10 - (j : Int)) < ((l.length : Int) + 10 - (i : Int))) :=
  canAccept_live_bidding caLiveSt caLiveEnv [1, 2] 10
    (by decide) (by decide) (by decide) (by decide)

/-- Witness for C8 amended -/
theorem canAccept_live_sorted_order_witness :
    ∃ (l : List (Nat × Int)) (sorted : List wdTaskDef),
      CanAccept caLiveSt caLiveEnv [1, 2] = .ok l ∧
      sorted.Perm (hydrateAt caLiveSt [1, 2] 10) ∧
      sorted.Pairwise openLE ∧
      l.map Prod.fst = sorted.map (fun d => d.TaskID) :=
  canAccept_live_sorted_order caLiveSt caLiveEnv [1, 2] 10
    (by decide) (by decide) (by decide) (by decide)

end Window
